import Mathlib

/-!
Verification of the chat-responder application (`src/app.py`).

The development shallowly embeds the Flask application as pure Lean
functions. Strings are handled through their character lists; the
external completion service is an oracle `String → Except String String`
(success payload or failure reason); the SQLAlchemy table is a `Store`
holding the records in insertion order together with the next id the
storage engine will assign. The SQL `ilike('%q%')` filter is embedded by
`likeMatch`, a faithful SQL LIKE matcher in which `%` and `_` are
wildcards and every other pattern character compares case-insensitively.
-/

/-- Model of Python `str.lower()` restricted to ASCII (the only case the
handlers rely on): lower-case every character. -/
def pyLower (s : String) : String :=
  ⟨s.data.map Char.toLower⟩

/-- Model of Python `str.strip()` for ASCII whitespace: drop whitespace
from both ends. -/
def pyStrip (s : String) : String :=
  ⟨((s.data.dropWhile Char.isWhitespace).reverse.dropWhile Char.isWhitespace).reverse⟩

/-- All suffixes of a character list, longest first, ending with `[]`. -/
def suffixes : List Char → List (List Char)
  | [] => [[]]
  | c :: t => (c :: t) :: suffixes t

/-- SQL LIKE matching as performed by SQLite for the `ilike` filter in
`search_training_data` (`app.py` line 64): `%` matches any sequence of
characters (some suffix of the subject remains for the rest of the
pattern), `_` matches exactly one character, and any other pattern
character matches case-insensitively. The first argument is the pattern,
the second the subject. -/
def likeMatch : List Char → List Char → Bool
  | [], s => s.isEmpty
  | c :: ps, s =>
      if c == '%' then (suffixes s).any (fun t => likeMatch ps t)
      else
        match s with
        | [] => false
        | d :: ss =>
            (if c == '_' then true else c.toLower == d.toLower) && likeMatch ps ss

/-- A character list free of the SQL LIKE wildcards `%` and `_`. -/
def wildcardFree (l : List Char) : Bool :=
  l.all (fun c => c != '%' && c != '_')

/-- Specification-side predicate (spec section 4.1, "records whose
question contains the given substring, case-insensitive"): `n` matches a
prefix of `h` case-insensitively. -/
def startCI : List Char → List Char → Bool
  | [], _ => true
  | _ :: _, [] => false
  | c :: cs, d :: ds => (c.toLower == d.toLower) && startCI cs ds

/-- Specification-side predicate: `n` occurs case-insensitively inside
`h` as a contiguous run. -/
def inStrCI (n : List Char) : List Char → Bool
  | [] => startCI n []
  | d :: ds => startCI n (d :: ds) || inStrCI n ds

/-- Specification-side predicate, on strings: `hay` contains `needle`
case-insensitively. States in executable form what the spec means by
"contains the given substring, case-insensitive". -/
def containsCI (needle hay : String) : Bool :=
  inStrCI needle.data hay.data

/-- The upload directory constant (`app.py` line 32). -/
def UPLOAD_FOLDER : String := "uploads"

/-- The allowed upload extensions (`app.py` line 33). -/
def ALLOWED_EXTENSIONS : List String := ["png", "jpg", "jpeg", "gif", "pdf"]

/-- The segment of `filename` after its last dot, i.e. Python
`filename.rsplit(".", 1)[1]` when a dot is present. -/
def extAfterLastDot (filename : String) : String :=
  ⟨(filename.data.reverse.takeWhile (fun c => c != '.')).reverse⟩

/-- Model of `allowed_file` (`app.py` lines 37-38): the filename contains
a dot and the lower-cased text after the last dot is an allowed
extension. -/
def allowed_file (filename : String) : Bool :=
  filename.data.contains '.' &&
    ALLOWED_EXTENSIONS.contains (pyLower (extAfterLastDot filename))

/-- Model of Python `str.split()` (no separator argument): split on runs
of whitespace, dropping empty pieces. The accumulator holds the current
word reversed. -/
def splitWsAux : List Char → List Char → List (List Char)
  | [], acc => if acc.isEmpty then [] else [acc.reverse]
  | c :: cs, acc =>
      if c.isWhitespace then
        if acc.isEmpty then splitWsAux cs [] else acc.reverse :: splitWsAux cs []
      else splitWsAux cs (c :: acc)

/-- Model of Python `str.split()` with no argument. -/
def splitWs (l : List Char) : List (List Char) := splitWsAux l []

/-- Model of Python `"_".join(parts)`. -/
def joinUnderscore : List (List Char) → List Char
  | [] => []
  | [w] => w
  | w :: ws => w ++ '_' :: joinUnderscore ws

/-- Modelled from the external library werkzeug (`werkzeug.utils.secure_filename`),
restricted to ASCII filenames on a POSIX system (there the initial NFKD
normalisation and ASCII encoding are the identity and `os.sep` is the
slash with no `altsep`): replace the path separator by a space, join the
whitespace-separated pieces with underscores, keep only ASCII letters,
digits, underscore, dot and hyphen, and strip leading and trailing dots
and underscores. -/
def secure_filename (filename : String) : String :=
  let replaced := filename.data.map (fun c => if c == '/' then ' ' else c)
  let joined := joinUnderscore (splitWs replaced)
  let kept := joined.filter (fun c => c.isAlphanum || c == '_' || c == '.' || c == '-')
  let s1 := kept.dropWhile (fun c => c == '.' || c == '_')
  ⟨(s1.reverse.dropWhile (fun c => c == '.' || c == '_')).reverse⟩

/-- One uploaded file part, as seen through `request.files`: only its
client-supplied filename matters to the handlers (saving to disk is the
opaque blob store). A `FileStorage` object is truthy exactly when its
filename is non-empty. -/
structure FilePart where
  filename : String
deriving DecidableEq

/-- The data a POST request carries to the add/edit handlers:
`request.form["question"]`/`["answer"]` (`none` means the key is absent,
which raises `KeyError`), `request.form.get("link")`/`.get("video")`
(`none` means absent, yielding Python `None`), and the optional
`request.files["picture"]`/`["document"]` parts. -/
structure RequestForm where
  question : Option String
  answer : Option String
  link : Option String
  video : Option String
  picture : Option FilePart
  document : Option FilePart
deriving DecidableEq

/-- The path recorded for a file part by the add/edit handlers
(`app.py` lines 128-140 and 173-185): when the part is present, truthy
(non-empty filename) and of an allowed type, the file is saved under
`uploads/<secure_filename>` and that path is recorded; otherwise no path
is produced. -/
def savedFilePath (part : Option FilePart) : Option String :=
  match part with
  | none => none
  | some f =>
      if f.filename != "" && allowed_file f.filename then
        some (UPLOAD_FOLDER ++ "/" ++ secure_filename f.filename)
      else none

/-- Model of the `TrainingData` row (`app.py` lines 45-52): the schema
makes `question` and `answer` non-null (plain `String` here) and the four
auxiliary columns nullable (`Option String`). -/
structure TrainingData where
  id : Nat
  question : String
  answer : String
  link : Option String
  video : Option String
  picture : Option String
  document : Option String
deriving DecidableEq

/-- The persistent table: records in insertion order, plus the id the
storage engine assigns to the next inserted row (primary-key
autoincrement). -/
structure Store where
  records : List TrainingData
  nextId : Nat
deriving DecidableEq

/-- The store of a freshly created database. -/
def emptyStore : Store := { records := [], nextId := 1 }

/-- The observable outcome of a form handler: a redirect on success, the
plain-text error page from the blanket `except` branch, or the
`get_or_404` failure. -/
inductive Outcome where
  | redirect
  | errorPage
  | notFound
deriving DecidableEq

/-- Model of `TrainingData.query.get(id)` / `get_or_404(id)`: the record
with the given primary key, if any. -/
def getRecord (id : Nat) (st : Store) : Option TrainingData :=
  st.records.find? (fun r => r.id == id)

/-- Model of `search_training_data` (`app.py` lines 63-66):
`TrainingData.query.filter(TrainingData.question.ilike(f"%{query}%")).all()`,
i.e. the records, in storage order, whose question matches the LIKE
pattern `%query%` case-insensitively. -/
def search_training_data (query : String) (st : Store) : List TrainingData :=
  st.records.filter (fun r => likeMatch ('%' :: (query.data ++ ['%'])) r.question.data)

/-- The fixed apology string returned when the completion call fails
(`app.py` line 84). -/
def apologyMsg : String := "I\x27m sorry, I couldn\x27t process your request."

/-- Model of `generate_answer` (`app.py` lines 69-84). The external
completion service is the oracle `completion` (the fixed model name,
system message, token cap and temperature are absorbed into it); on
success the response text is stripped of surrounding whitespace, and any
failure inside the `try` block is caught and converted to the fixed
apology string. -/
def generate_answer (completion : String → Except String String)
    (question : String) : String :=
  match completion question with
  | Except.ok response => pyStrip response
  | Except.error _ => apologyMsg

/-- Model of the POST branch of the `chatgpt` route (`app.py` lines
89-107). `body` is `request.values.get("Body", "")` with `none` for a
missing field; the incoming text is lower-cased, the store is searched,
and either the first match answers (completion not invoked) or the
completion fallback runs. The second component counts how many times the
external completion function was invoked. -/
def chatgptPost (completion : String → Except String String)
    (st : Store) (body : Option String) : String × Nat :=
  let incoming := pyLower (body.getD "")
  match search_training_data incoming st with
  | r :: _ => (r.answer, 0)
  | [] => (generate_answer completion incoming, 1)

/-- Model of the POST branch of `add_training_data` (`app.py` lines
117-149): a missing required form key raises `KeyError`, caught by the
blanket handler with no change to the store; otherwise a new record is
appended with the next id, the optional text fields exactly as supplied
(`None` when absent), and file paths per `savedFilePath`. -/
def add_training_data (form : RequestForm) (st : Store) : Store × Outcome :=
  match form.question, form.answer with
  | some q, some a =>
      let newData : TrainingData :=
        { id := st.nextId
          question := q
          answer := a
          link := form.link
          video := form.video
          picture := savedFilePath form.picture
          document := savedFilePath form.document }
      ({ records := st.records ++ [newData], nextId := st.nextId + 1 },
        Outcome.redirect)
  | _, _ => (st, Outcome.errorPage)

/-- The per-record effect of the edit handler body (`app.py` lines
168-185), applied to the record whose primary key is `id`: question and
answer come from the required fields, link and video are set to
`request.form.get(...)` (so cleared to `None` when absent from the
form), and picture/document are overwritten only when a valid new file
was supplied. Records with a different id are untouched. -/
def editUpdate (id : Nat) (form : RequestForm) (q a : String)
    (r : TrainingData) : TrainingData :=
  if r.id == id then
    { r with
      question := q
      answer := a
      link := form.link
      video := form.video
      picture := (match savedFilePath form.picture with
        | some p => some p
        | none => r.picture)
      document := (match savedFilePath form.document with
        | some p => some p
        | none => r.document) }
  else r

/-- Model of the POST branch of `edit_training_data` (`app.py` lines
163-193): `get_or_404` fails for an absent id; a missing required form
key raises before the commit, leaving the store unchanged; otherwise the
record with the given primary key is rewritten by `editUpdate`. -/
def edit_training_data (id : Nat) (form : RequestForm) (st : Store) :
    Store × Outcome :=
  match getRecord id st with
  | none => (st, Outcome.notFound)
  | some _ =>
      match form.question, form.answer with
      | some q, some a =>
          ({ st with records := st.records.map (editUpdate id form q a) },
            Outcome.redirect)
      | _, _ => (st, Outcome.errorPage)

/-- Model of `delete_training_data` (`app.py` lines 197-202):
`get_or_404` fails for an absent id; otherwise the record with that
primary key (unique, being the primary key) is removed permanently. -/
def delete_training_data (id : Nat) (st : Store) : Store × Outcome :=
  match getRecord id st with
  | none => (st, Outcome.notFound)
  | some _ =>
      ({ st with records := st.records.filter (fun r => r.id != id) },
        Outcome.redirect)

/-- One mutating operation on the store, as issued by the CRUD routes. -/
inductive Op where
  | add (form : RequestForm)
  | edit (id : Nat) (form : RequestForm)
  | del (id : Nat)

/-- Apply one operation, keeping the resulting store. -/
def applyOp (st : Store) (op : Op) : Store :=
  match op with
  | Op.add f => (add_training_data f st).1
  | Op.edit i f => (edit_training_data i f st).1
  | Op.del i => (delete_training_data i st).1

/-- Run a sequence of operations from the fresh database. -/
def runOps (ops : List Op) : Store :=
  ops.foldl applyOp emptyStore

/-! ## Concrete fixtures used in counterexamples and witnesses -/

/-- A store in which the question of an earlier record strictly contains
the question of a later one. -/
def shadowStore : Store :=
  { records := [⟨1, "ab", "1", none, none, none, none⟩,
                ⟨2, "b", "2", none, none, none, none⟩]
    nextId := 3 }

/-- A store with a single record whose question is `"hi"`. -/
def oneRecStore : Store :=
  { records := [⟨1, "hi", "yo", none, none, none, none⟩], nextId := 2 }

/-- A store with a single record whose question is the single letter
`"a"`. -/
def wcStore : Store :=
  { records := [⟨1, "a", "1", none, none, none, none⟩], nextId := 2 }

/-- A store with a single record whose question is `"ab"`. -/
def abStore : Store :=
  { records := [⟨1, "ab", "1", none, none, none, none⟩], nextId := 2 }

/-- A store with a single record carrying link and video values. -/
def linkStore : Store :=
  { records := [⟨1, "q", "a", some "L", some "V", none, none⟩], nextId := 2 }

/-- An edit form supplying question and answer but neither link, video
nor files. -/
def textOnlyForm : RequestForm :=
  ⟨some "q2", some "a2", none, none, none, none⟩

/-- An add form supplying a picture part named `x.png` and a document
part named `x.exe`. -/
def uploadForm : RequestForm :=
  ⟨some "q", some "a", none, none, some ⟨"x.png"⟩, some ⟨"x.exe"⟩⟩

/-! ## Lemmas about characters and LIKE matching -/

/-- Lower-casing a character is idempotent. -/
theorem char_toLower_toLower (c : Char) : c.toLower.toLower = c.toLower := by
  unfold Char.toLower
  by_cases h : c.toNat ≥ 65 ∧ c.toNat ≤ 90
  · rw [if_pos h]
    have hv : Nat.isValidChar (c.toNat + 32) := Or.inl (by omega)
    have ht : (Char.ofNat (c.toNat + 32)).toNat = c.toNat + 32 := by
      rw [Char.ofNat, dif_pos hv]
      rfl
    rw [if_neg (by rw [ht]; omega)]
  · rw [if_neg h, if_neg h]

/-- Every list is its own first suffix. -/
theorem mem_suffixes_self (s : List Char) : s ∈ suffixes s := by
  cases s <;> simp [suffixes]

/-- The empty list is a suffix of every list. -/
theorem nil_mem_suffixes (s : List Char) : [] ∈ suffixes s := by
  induction s with
  | nil => simp [suffixes]
  | cons c t ih => simp [suffixes, ih]

/-- A leading `%` wildcard may match the empty sequence. -/
theorem likeMatch_percent_skip (p s : List Char) (h : likeMatch p s = true) :
    likeMatch ('%' :: p) s = true := by
  simp only [likeMatch, beq_self_eq_true, if_true, List.any_eq_true]
  exact ⟨s, mem_suffixes_self s, h⟩

/-- The pattern `%` alone matches every subject. -/
theorem likeMatch_percent_all (s : List Char) : likeMatch ['%'] s = true := by
  simp only [likeMatch, beq_self_eq_true, if_true, List.any_eq_true]
  exact ⟨[], nil_mem_suffixes s, rfl⟩

/-- A pattern whose characters agree with the subject after lower-casing,
followed by a trailing `%`, matches the subject. This holds even when the
pattern contains `%` or `_`: a wildcard is at least as permissive as the
literal character it replaces. -/
theorem likeMatch_self_ci (p : List Char) :
    ∀ t : List Char, p.map Char.toLower = t.map Char.toLower →
      likeMatch (p ++ ['%']) t = true := by
  induction p with
  | nil =>
    intro t h
    cases t with
    | nil => exact likeMatch_percent_all []
    | cons d ds => simp at h
  | cons c cs ih =>
    intro t h
    cases t with
    | nil => simp at h
    | cons d ds =>
      simp only [List.map_cons, List.cons.injEq] at h
      obtain ⟨h1, h2⟩ := h
      by_cases hc : c = '%'
      · subst hc
        simp only [List.cons_append, likeMatch, beq_self_eq_true, if_true,
          List.any_eq_true]
        refine ⟨ds, ?_, ih ds h2⟩
        simp [suffixes, mem_suffixes_self]
      · by_cases hu : c = '_'
        · subst hu
          simp [likeMatch, ih ds h2]
        · simp [likeMatch, hc, hu, ih ds h2, h1]

/-- Pointwise-equal predicates give equal `any`. -/
theorem any_congr_local {α : Type} (l : List α) (f g : α → Bool)
    (h : ∀ a ∈ l, f a = g a) : l.any f = l.any g := by
  induction l with
  | nil => rfl
  | cons a t ih =>
    simp only [List.any_cons, h a (by simp)]
    rw [ih (fun x hx => h x (by simp [hx]))]

/-- A wildcard-free pattern with a trailing `%` matches exactly the
subjects of which it is a case-insensitive prefix. -/
theorem likeMatch_wcfree_tail (p : List Char) (hw : wildcardFree p = true) :
    ∀ s : List Char, likeMatch (p ++ ['%']) s = startCI p s := by
  induction p with
  | nil =>
    intro s
    simp [startCI, likeMatch_percent_all]
  | cons c cs ih =>
    simp only [wildcardFree, List.all_cons, Bool.and_eq_true, bne_iff_ne, ne_eq] at hw
    obtain ⟨⟨hc, hu⟩, hcs⟩ := hw
    have ihcs := ih (by simpa [wildcardFree] using hcs)
    intro s
    cases s with
    | nil => simp [likeMatch, startCI, hc]
    | cons d ss => simp [likeMatch, startCI, hc, hu, ihcs ss]

/-- Case-insensitive containment is a disjunction of case-insensitive
prefix matches over all suffixes. -/
theorem inStrCI_eq_any (n s : List Char) :
    inStrCI n s = (suffixes s).any (fun t => startCI n t) := by
  induction s with
  | nil => simp [inStrCI, suffixes]
  | cons d ds ih => simp [inStrCI, suffixes, ih]

/-- For a wildcard-free query `n`, the LIKE pattern `%n%` matches exactly
the subjects containing `n` case-insensitively. -/
theorem likeMatch_wcfree (n : List Char) (hw : wildcardFree n = true)
    (s : List Char) :
    likeMatch ('%' :: (n ++ ['%'])) s = inStrCI n s := by
  simp only [likeMatch, beq_self_eq_true, if_true]
  rw [inStrCI_eq_any]
  exact any_congr_local _ _ _ (fun t _ => likeMatch_wcfree_tail n hw t)

/-- `startCI n h` holds exactly when some prefix of `h` equals `n` after
lower-casing. -/
theorem startCI_iff (n : List Char) :
    ∀ h : List Char, startCI n h = true ↔
      ∃ m r, h = m ++ r ∧ m.map Char.toLower = n.map Char.toLower := by
  induction n with
  | nil =>
    intro h
    constructor
    · intro _
      exact ⟨[], h, rfl, rfl⟩
    · intro _
      rfl
  | cons c cs ih =>
    intro h
    cases h with
    | nil =>
      constructor
      · intro hfalse
        simp [startCI] at hfalse
      · rintro ⟨m, r, hmr, hmap⟩
        rcases m with _ | ⟨x, xs⟩
        · simp at hmap
        · simp at hmr
    | cons d ds =>
      constructor
      · intro hs
        simp only [startCI, Bool.and_eq_true, beq_iff_eq] at hs
        obtain ⟨h1, h2⟩ := hs
        obtain ⟨m, r, hmr, hmap⟩ := (ih ds).mp h2
        exact ⟨d :: m, r, by simp [hmr], by simp [hmap, h1]⟩
      · rintro ⟨m, r, hmr, hmap⟩
        rcases m with _ | ⟨x, xs⟩
        · simp at hmap
        · simp only [List.cons_append, List.cons.injEq] at hmr
          obtain ⟨hxd, hrest⟩ := hmr
          simp only [List.map_cons, List.cons.injEq] at hmap
          obtain ⟨hmc, hmcs⟩ := hmap
          subst hxd
          simp only [startCI, Bool.and_eq_true, beq_iff_eq]
          refine ⟨by rw [← hmc], (ih ds).mpr ⟨xs, r, hrest.symm ▸ rfl, hmcs⟩⟩

/-- `inStrCI n h` holds exactly when `h` decomposes as `a ++ m ++ b` with
`m` equal to `n` after lower-casing: the executable form of the spec
phrase "contains the given substring, case-insensitive". -/
theorem inStrCI_iff (n : List Char) :
    ∀ h : List Char, inStrCI n h = true ↔
      ∃ a m b, h = a ++ m ++ b ∧ m.map Char.toLower = n.map Char.toLower := by
  intro h
  induction h with
  | nil =>
    simp only [inStrCI]
    rw [startCI_iff]
    constructor
    · rintro ⟨m, r, hmr, hmap⟩
      exact ⟨[], m, r, by simp [hmr], hmap⟩
    · rintro ⟨a, m, b, hab, hmap⟩
      rcases a with _ | ⟨x, xs⟩
      · rcases m with _ | ⟨y, ys⟩
        · exact ⟨[], [], by simp, by simpa using hmap⟩
        · simp at hab
      · simp at hab
  | cons d ds ih =>
    simp only [inStrCI, Bool.or_eq_true]
    constructor
    · rintro (hs | hin)
      · obtain ⟨m, r, hmr, hmap⟩ := (startCI_iff n _).mp hs
        exact ⟨[], m, r, by simp [hmr], hmap⟩
      · obtain ⟨a, m, b, hab, hmap⟩ := ih.mp hin
        exact ⟨d :: a, m, b, by simp [hab], hmap⟩
    · rintro ⟨a, m, b, hab, hmap⟩
      rcases a with _ | ⟨x, xs⟩
      · left
        exact (startCI_iff n _).mpr ⟨m, b, by simpa using hab, hmap⟩
      · right
        simp only [List.cons_append, List.cons.injEq] at hab
        exact ih.mpr ⟨xs, m, b, hab.2, hmap⟩

/-- String form of `inStrCI_iff`. -/
theorem containsCI_iff (needle hay : String) :
    containsCI needle hay = true ↔
      ∃ a m b, hay.data = a ++ m ++ b ∧
        m.map Char.toLower = needle.data.map Char.toLower := by
  exact inStrCI_iff needle.data hay.data

/-! ## Store-level helper lemmas -/

/-- Lower-casing a string twice is the same as once, at the level of
character data. -/
theorem pyLower_lower_data (s : String) :
    (pyLower s).data.map Char.toLower = s.data.map Char.toLower := by
  show (s.data.map Char.toLower).map Char.toLower = s.data.map Char.toLower
  rw [List.map_map]
  refine List.map_congr_left (fun a _ => ?_)
  simp only [Function.comp_apply, char_toLower_toLower]

/-- The LIKE pattern built by lower-casing `Q` matches any string that is
`Q` up to letter case. -/
theorem like_self_match (Q t : String) (hq : pyLower Q = pyLower t) :
    likeMatch ('%' :: ((pyLower Q).data ++ ['%'])) t.data = true := by
  apply likeMatch_percent_skip
  apply likeMatch_self_ci
  rw [pyLower_lower_data]
  exact congrArg String.data hq

/-- `find?` by id over a map that preserves ids and fixes every record
whose id differs from `i` is unchanged for lookups of a different id. -/
theorem find?_id_map_of_ne (l : List TrainingData)
    (f : TrainingData → TrainingData) (i : Nat)
    (hid : ∀ x, (f x).id = x.id) (hfix : ∀ x, x.id ≠ i → f x = x)
    (j : Nat) (hj : j ≠ i) :
    (l.map f).find? (fun r => r.id == j) = l.find? (fun r => r.id == j) := by
  induction l with
  | nil => rfl
  | cons x xs ih =>
    by_cases hx : x.id = j
    · have hfx : f x = x := hfix x (fun h => hj (hx.symm.trans h))
      rw [List.map_cons, hfx, List.find?_cons_of_pos _ (by simp [hx]),
        List.find?_cons_of_pos _ (by simp [hx])]
    · rw [List.map_cons, List.find?_cons_of_neg _ (by simp [hid, hx]),
        List.find?_cons_of_neg _ (by simp [hx])]
      exact ih

/-- `find?` by id over an id-preserving map finds the image of what the
plain `find?` finds. -/
theorem find?_id_map_eq (l : List TrainingData)
    (f : TrainingData → TrainingData) (i : Nat)
    (hid : ∀ x, (f x).id = x.id) :
    (l.map f).find? (fun r => r.id == i) =
      (l.find? (fun r => r.id == i)).map f := by
  induction l with
  | nil => rfl
  | cons x xs ih =>
    by_cases hx : x.id = i
    · rw [List.map_cons, List.find?_cons_of_pos _ (by simp [hid, hx]),
        List.find?_cons_of_pos _ (by simp [hx])]
      rfl
    · rw [List.map_cons, List.find?_cons_of_neg _ (by simp [hid, hx]),
        List.find?_cons_of_neg _ (by simp [hx])]
      exact ih

/-! ## Claim C1 -/

/-- Claim C1 counterexample: `"b"` is the question of a stored record
with answer `"2"`, yet `respond("b")` returns `"1"`, the answer of the
earlier record whose question `"ab"` also contains `"b"`; so the claim
that `respond(Q)` returns the answer of the record whose question is `Q`
is false as stated. -/
theorem claim_C1_cex :
    chatgptPost (fun _ => Except.ok "GEN") shadowStore (some "b") = ("1", 0) ∧
    (⟨2, "b", "2", none, none, none, none⟩ : TrainingData) ∈ shadowStore.records ∧
    ("1" : String) ≠ "2" := by
  refine ⟨rfl, ?_, by decide⟩
  simp [shadowStore]

/-- Claim C1 (amended): for every store and every question string `Q`
that is, up to letter case, the question field of some stored record,
`respond(Q)` does not invoke the external completion function and returns
the answer of the first stored record whose question matches the LIKE
pattern `%lower(Q)%` (storage order; this is the stored answer `A` of
`Q`'s record whenever that record is the first such match). -/
theorem claim_C1 (st : Store) (r : TrainingData) (Q : String)
    (completion : String → Except String String)
    (hr : r ∈ st.records) (hq : pyLower Q = pyLower r.question) :
    ∃ r0 rest, search_training_data (pyLower Q) st = r0 :: rest ∧
      chatgptPost completion st (some Q) = (r0.answer, 0) := by
  have hmatch : likeMatch ('%' :: ((pyLower Q).data ++ ['%'])) r.question.data = true :=
    like_self_match Q r.question hq
  have hmem : r ∈ st.records.filter
      (fun x => likeMatch ('%' :: ((pyLower Q).data ++ ['%'])) x.question.data) :=
    List.mem_filter.mpr ⟨hr, hmatch⟩
  cases hsearch : search_training_data (pyLower Q) st with
  | nil => exact absurd hsearch (List.ne_nil_of_mem hmem)
  | cons r0 rest =>
    refine ⟨r0, rest, rfl, ?_⟩
    simp only [chatgptPost, Option.getD_some]
    rw [hsearch]

/-- Claim C1 witness: in a store holding the single record
(question `"hi"`, answer `"yo"`), asking `"HI"` finds a first match and
answers it without invoking the completion function. -/
theorem claim_C1_witness :
    ∃ r0 rest, search_training_data (pyLower "HI") oneRecStore = r0 :: rest ∧
      chatgptPost (fun _ => Except.ok "GEN") oneRecStore (some "HI") = (r0.answer, 0) :=
  claim_C1 oneRecStore ⟨1, "hi", "yo", none, none, none, none⟩ "HI"
    (fun _ => Except.ok "GEN") (by simp [oneRecStore]) (by decide)

/-! ## Claim C2 -/

/-- Claim C2: whenever the external completion call made by `respond`
fails — `completion` returns an error on the normalized input — the
failure is absorbed: `generate_answer` returns the fixed apology string,
and `respond` (which only consults the completion on a search miss)
returns the apology with exactly one completion invocation and no
exception, being a total function. -/
theorem claim_C2 (st : Store) (b : Option String)
    (completion : String → Except String String) (e : String)
    (hf : completion (pyLower (b.getD "")) = Except.error e) :
    generate_answer completion (pyLower (b.getD "")) = apologyMsg ∧
    (search_training_data (pyLower (b.getD "")) st = [] →
      chatgptPost completion st b = (apologyMsg, 1)) := by
  constructor
  · simp [generate_answer, hf]
  · intro hs
    simp [chatgptPost, hs, generate_answer, hf]

/-- Claim C2 witness: with an always-failing completion and an empty
store, asking `"q"` yields the apology string. -/
theorem claim_C2_witness :
    generate_answer (fun _ => Except.error "boom")
      (pyLower ((some "q").getD "")) = apologyMsg ∧
    (search_training_data (pyLower ((some "q").getD "")) emptyStore = [] →
      chatgptPost (fun _ => Except.error "boom") emptyStore (some "q") =
        (apologyMsg, 1)) :=
  claim_C2 emptyStore (some "q") (fun _ => Except.error "boom") "boom" rfl

/-! ## Claim C3 -/

/-- Claim C3 counterexample: `"_"` (lower-case form `"_"`) is contained
in no stored question of the one-record store (`containsCI "_" "a"` is
false), yet `respond("_")` returns the stored answer `"1"` with zero
completion invocations, because `_` is a LIKE wildcard and `%_%` matches
`"a"`; the claim demands one invocation and the trimmed completion
output. -/
theorem claim_C3_cex :
    pyLower "_" = "_" ∧
    containsCI "_" "a" = false ∧
    chatgptPost (fun _ => Except.ok "GEN") wcStore (some "_") = ("1", 0) ∧
    (("1", 0) : String × Nat) ≠ (pyStrip "GEN", 1) := by
  exact ⟨rfl, rfl, rfl, by decide⟩

/-- Claim C3 (amended): for every input `Q` whose lower-cased form is
free of the LIKE wildcards `%` and `_` and is contained, case-
insensitively, in no stored record's question, `respond(Q)` invokes the
external completion function exactly once and returns its output with
surrounding whitespace trimmed. -/
theorem claim_C3 (st : Store) (Q out : String)
    (completion : String → Except String String)
    (hw : wildcardFree (pyLower Q).data = true)
    (hnone : ∀ r ∈ st.records, containsCI (pyLower Q) r.question = false)
    (hok : completion (pyLower Q) = Except.ok out) :
    chatgptPost completion st (some Q) = (pyStrip out, 1) := by
  have hs : search_training_data (pyLower Q) st = [] := by
    simp only [search_training_data]
    apply List.filter_eq_nil_iff.mpr
    intro r hr
    rw [likeMatch_wcfree _ hw]
    have hcc := hnone r hr
    simp only [containsCI] at hcc
    simp [hcc]
  simp [chatgptPost, hs, generate_answer, hok]

/-- Claim C3 witness: on the empty store, asking `"zz"` with a completion
answering `" A "` returns the trimmed `"A"` after exactly one
invocation. -/
theorem claim_C3_witness :
    chatgptPost (fun _ => Except.ok " A ") emptyStore (some "zz") =
      (pyStrip " A ", 1) :=
  claim_C3 emptyStore "zz" " A " (fun _ => Except.ok " A ") (by decide)
    (by intro r hr; simp [emptyStore] at hr) rfl

/-! ## Claim C4 -/

/-- Claim C4 counterexample: `search("_")` on a store whose only record
has question `"ab"` returns that record, although `"ab"` does not
contain `"_"` case-insensitively (in either the executable or the
decomposition sense), because `_` is a LIKE wildcard. -/
theorem claim_C4_cex :
    search_training_data "_" abStore =
      [⟨1, "ab", "1", none, none, none, none⟩] ∧
    containsCI "_" "ab" = false ∧
    ¬ ∃ a m b, "ab".data = a ++ m ++ b ∧
        m.map Char.toLower = "_".data.map Char.toLower := by
  refine ⟨rfl, rfl, ?_⟩
  intro hex
  have hc := (containsCI_iff "_" "ab").mpr hex
  have hf : containsCI "_" "ab" = false := rfl
  rw [hf] at hc
  exact absurd hc (by decide)

/-- Claim C4 (amended): for every wildcard-free substring `S` (no `%`,
no `_`) and every store, `search(S)` returns exactly the records whose
question contains `S` case-insensitively, in storage order, and the
empty sequence when no record's question contains `S`; `containsCI`
states containment in decomposition form. For `S` containing a LIKE
wildcard the code instead performs wildcard matching. -/
theorem claim_C4 (S : String) (st : Store) (hw : wildcardFree S.data = true) :
    search_training_data S st =
      st.records.filter (fun r => containsCI S r.question) ∧
    ((∀ r ∈ st.records, containsCI S r.question = false) →
      search_training_data S st = []) ∧
    (∀ hay : String, containsCI S hay = true ↔
      ∃ a m b, hay.data = a ++ m ++ b ∧
        m.map Char.toLower = S.data.map Char.toLower) := by
  have hfil : search_training_data S st =
      st.records.filter (fun r => containsCI S r.question) := by
    simp only [search_training_data]
    apply List.filter_congr
    intro r _
    rw [likeMatch_wcfree _ hw]
    rfl
  refine ⟨hfil, ?_, fun hay => containsCI_iff S hay⟩
  intro hnone
  rw [hfil]
  exact List.filter_eq_nil_iff.mpr (fun r hr => by simp [hnone r hr])

/-- Claim C4 witness: searching `"b"` in the store whose only question is
`"ab"` returns exactly the case-insensitive containment filter. -/
theorem claim_C4_witness :
    search_training_data "b" abStore =
      abStore.records.filter (fun r => containsCI "b" r.question) ∧
    ((∀ r ∈ abStore.records, containsCI "b" r.question = false) →
      search_training_data "b" abStore = []) ∧
    (∀ hay : String, containsCI "b" hay = true ↔
      ∃ a m b, hay.data = a ++ m ++ b ∧
        m.map Char.toLower = "b".data.map Char.toLower) :=
  claim_C4 "b" abStore (by decide)

/-! ## Claim C5 -/

/-- `editUpdate` never changes the id of a record. -/
theorem editUpdate_id (id : Nat) (form : RequestForm) (q a : String)
    (r : TrainingData) : (editUpdate id form q a r).id = r.id := by
  unfold editUpdate
  split <;> rfl

/-- `editUpdate` fixes every record whose id differs from the target. -/
theorem editUpdate_fix (id : Nat) (form : RequestForm) (q a : String)
    (r : TrainingData) (h : r.id ≠ id) : editUpdate id form q a r = r := by
  unfold editUpdate
  rw [if_neg (by simp [h])]

/-- Claim C5 counterexample: the store holds one record with
link `some "L"`; an edit request supplying only question and answer (no
link field) succeeds but clears link and video to `none`, although the
claim says fields not supplied are left unchanged. -/
theorem claim_C5_cex :
    edit_training_data 1 textOnlyForm linkStore =
      ({ records := [⟨1, "q2", "a2", none, none, none, none⟩], nextId := 2 },
        Outcome.redirect) ∧
    linkStore.records.map (fun r => r.link) = [some "L"] ∧
    (some "L" : Option String) ≠ none := by
  exact ⟨rfl, rfl, by decide⟩

/-- Claim C5 (amended): for an absent id the edit fails with NotFound;
for an existing id it redirects and rewrites exactly the record with
that id: question and answer are overwritten with the supplied values,
link and video are set to the form's values — hence cleared when absent
from the form — picture and document are overwritten only when a valid
new file is supplied and left unchanged otherwise, and every other
record, every id, and the next id are unchanged. -/
theorem claim_C5 (id : Nat) (form : RequestForm) (st : Store) (q a : String)
    (hq : form.question = some q) (ha : form.answer = some a) :
    (getRecord id st = none →
      edit_training_data id form st = (st, Outcome.notFound)) ∧
    (∀ r, getRecord id st = some r →
      (edit_training_data id form st).2 = Outcome.redirect ∧
      (edit_training_data id form st).1.nextId = st.nextId ∧
      (edit_training_data id form st).1.records.map (fun x => x.id) =
        st.records.map (fun x => x.id) ∧
      getRecord id (edit_training_data id form st).1 = some
        { r with
          question := q
          answer := a
          link := form.link
          video := form.video
          picture := (match savedFilePath form.picture with
            | some p => some p
            | none => r.picture)
          document := (match savedFilePath form.document with
            | some p => some p
            | none => r.document) } ∧
      (∀ j, j ≠ id → getRecord j (edit_training_data id form st).1 =
        getRecord j st)) := by
  constructor
  · intro h
    simp [edit_training_data, h]
  · intro r hr
    have hedit : edit_training_data id form st =
        ({ st with records := st.records.map (editUpdate id form q a) },
          Outcome.redirect) := by
      simp [edit_training_data, hr, hq, ha]
    have h2 : st.records.find? (fun x => x.id == id) = some r := hr
    have hrid := List.find?_some h2
    refine ⟨by rw [hedit], by rw [hedit], ?_, ?_, ?_⟩
    · rw [hedit]
      simp only [List.map_map]
      exact List.map_congr_left (fun x _ => editUpdate_id id form q a x)
    · rw [hedit]
      simp only [getRecord]
      rw [find?_id_map_eq _ _ _ (editUpdate_id id form q a)]
      show ((st.records.find? (fun x => x.id == id)).map (editUpdate id form q a)) = _
      rw [show st.records.find? (fun x => x.id == id) = some r from hr]
      show some (editUpdate id form q a r) = _
      unfold editUpdate
      rw [if_pos hrid]
    · intro j hj
      rw [hedit]
      simp only [getRecord]
      exact find?_id_map_of_ne _ _ _ (editUpdate_id id form q a)
        (editUpdate_fix id form q a) j hj

/-- Claim C5 witness: editing record 1 of the one-record store with a
form supplying only question and answer redirects, keeps ids and next id,
rewrites the record as described and leaves other lookups unchanged. -/
theorem claim_C5_witness :
    (edit_training_data 1 textOnlyForm linkStore).2 = Outcome.redirect ∧
    (edit_training_data 1 textOnlyForm linkStore).1.nextId = linkStore.nextId ∧
    (edit_training_data 1 textOnlyForm linkStore).1.records.map (fun x => x.id) =
      linkStore.records.map (fun x => x.id) ∧
    getRecord 1 (edit_training_data 1 textOnlyForm linkStore).1 = some
      { (⟨1, "q", "a", some "L", some "V", none, none⟩ : TrainingData) with
        question := "q2"
        answer := "a2"
        link := textOnlyForm.link
        video := textOnlyForm.video
        picture := (match savedFilePath textOnlyForm.picture with
          | some p => some p
          | none => (none : Option String))
        document := (match savedFilePath textOnlyForm.document with
          | some p => some p
          | none => (none : Option String)) } ∧
    (∀ j, j ≠ 1 → getRecord j (edit_training_data 1 textOnlyForm linkStore).1 =
      getRecord j linkStore) :=
  (claim_C5 1 textOnlyForm linkStore "q2" "a2" rfl rfl).2
    ⟨1, "q", "a", some "L", some "V", none, none⟩ rfl

/-! ## Claim C6 -/

/-- Claim C6: a supplied file part whose filename has an allowed
extension is recorded on the new record as the path
`uploads/<sanitized filename>`, a part with a disallowed extension
records no path, and in both cases the add request raises no error: it
redirects and appends exactly one record whose picture/document fields
are the saved paths of the supplied parts. -/
theorem claim_C6 (f : FilePart) (st : Store) (form : RequestForm) (q a : String)
    (hq : form.question = some q) (ha : form.answer = some a) :
    (allowed_file f.filename = true →
      savedFilePath (some f) =
        some (UPLOAD_FOLDER ++ "/" ++ secure_filename f.filename)) ∧
    (allowed_file f.filename = false → savedFilePath (some f) = none) ∧
    (add_training_data form st).2 = Outcome.redirect ∧
    (add_training_data form st).1.records = st.records ++
      [⟨st.nextId, q, a, form.link, form.video,
        savedFilePath form.picture, savedFilePath form.document⟩] := by
  refine ⟨?_, ?_, ?_, ?_⟩
  · intro hall
    have hne : f.filename ≠ "" := by
      intro h0
      rw [h0] at hall
      exact absurd hall (by decide)
    simp [savedFilePath, hall, hne]
  · intro hnall
    simp [savedFilePath, hnall]
  · simp [add_training_data, hq, ha]
  · simp [add_training_data, hq, ha]

/-- Claim C6 witness: adding a record with picture part `x.png` and
document part `x.exe` stores picture path `uploads/x.png`, stores no
document path, and appends exactly that record. -/
theorem claim_C6_witness :
    savedFilePath (some (⟨"x.png"⟩ : FilePart)) = some "uploads/x.png" ∧
    savedFilePath (some (⟨"x.exe"⟩ : FilePart)) = none ∧
    (add_training_data uploadForm emptyStore).1.records =
      [⟨1, "q", "a", none, none, some "uploads/x.png", none⟩] := by
  have h := claim_C6 (⟨"x.png"⟩ : FilePart) emptyStore uploadForm "q" "a" rfl rfl
  have h2 := claim_C6 (⟨"x.exe"⟩ : FilePart) emptyStore uploadForm "q" "a" rfl rfl
  refine ⟨(h.1 (by decide)).trans (by decide), h2.2.1 (by decide), ?_⟩
  exact h.2.2.2.trans (by decide)

/-! ## Claim C7 -/

/-- Claim C7: inserting a record with non-empty question `q` and answer
`a` and no optional fields succeeds, and getting the assigned id (the
store's next id) returns a record with question `q`, answer `a`, and all
four optional fields absent. -/
theorem claim_C7 (q a : String) (st : Store) (_hq : q ≠ "") (_ha : a ≠ "")
    (hwf : ∀ r ∈ st.records, r.id < st.nextId) :
    (add_training_data ⟨some q, some a, none, none, none, none⟩ st).2 =
      Outcome.redirect ∧
    getRecord st.nextId
      (add_training_data ⟨some q, some a, none, none, none, none⟩ st).1 =
      some ⟨st.nextId, q, a, none, none, none, none⟩ := by
  constructor
  · rfl
  · show ((st.records ++
      [(⟨st.nextId, q, a, none, none, none, none⟩ : TrainingData)]).find?
        (fun r : TrainingData => r.id == st.nextId)) = _
    rw [List.find?_append]
    have h1 : st.records.find? (fun r => r.id == st.nextId) = none :=
      List.find?_eq_none.mpr (fun x hx => by
        simp only [beq_iff_eq]
        exact Nat.ne_of_lt (hwf x hx))
    rw [h1]
    simp

/-- Claim C7 witness: inserting (question `"q"`, answer `"a"`) in the
fresh store and then getting id 1 returns that bare record. -/
theorem claim_C7_witness :
    (add_training_data ⟨some "q", some "a", none, none, none, none⟩
      emptyStore).2 = Outcome.redirect ∧
    getRecord emptyStore.nextId
      (add_training_data ⟨some "q", some "a", none, none, none, none⟩
        emptyStore).1 =
      some ⟨emptyStore.nextId, "q", "a", none, none, none, none⟩ :=
  claim_C7 "q" "a" emptyStore (by decide) (by decide)
    (by intro r hr; simp [emptyStore] at hr)

/-! ## Claim C8 -/

/-- Claim C8: deleting an absent id fails with NotFound and changes
nothing; deleting an existing id redirects, permanently removes exactly
the records with that id, and a subsequent get of that id finds
nothing. -/
theorem claim_C8 (id : Nat) (st : Store) :
    (getRecord id st = none →
      delete_training_data id st = (st, Outcome.notFound)) ∧
    (∀ r, getRecord id st = some r →
      (delete_training_data id st).2 = Outcome.redirect ∧
      (delete_training_data id st).1.records =
        st.records.filter (fun r0 => r0.id != id) ∧
      getRecord id (delete_training_data id st).1 = none) := by
  constructor
  · intro h
    simp [delete_training_data, h]
  · intro r hr
    have hd : delete_training_data id st =
        ({ st with records := st.records.filter (fun r0 => r0.id != id) },
          Outcome.redirect) := by
      simp [delete_training_data, hr]
    refine ⟨by rw [hd], by rw [hd], ?_⟩
    rw [hd]
    show ((st.records.filter (fun r0 => r0.id != id)).find?
      (fun x => x.id == id)) = none
    apply List.find?_eq_none.mpr
    intro x hx
    have hxne := (List.mem_filter.mp hx).2
    simp only [bne_iff_ne, ne_eq] at hxne
    simp [hxne]

/-- Claim C8 witness: deleting record 1 of the one-record store redirects,
filters it out, and a subsequent get of id 1 finds nothing. -/
theorem claim_C8_witness :
    (delete_training_data 1 oneRecStore).2 = Outcome.redirect ∧
    (delete_training_data 1 oneRecStore).1.records =
      oneRecStore.records.filter (fun r0 => r0.id != 1) ∧
    getRecord 1 (delete_training_data 1 oneRecStore).1 = none :=
  (claim_C8 1 oneRecStore).2 ⟨1, "hi", "yo", none, none, none, none⟩ rfl

/-! ## Claim C9 -/

/-- Claim C9 counterexample: the add handler accepts an empty question
(only a missing form key fails, an empty string passes and the schema
only forbids NULL), so one add operation reaches a store whose record
has an empty question field, contradicting the claimed non-emptiness. -/
theorem claim_C9_cex :
    (runOps [Op.add ⟨some "", some "x", none, none, none, none⟩]).records =
      [⟨1, "", "x", none, none, none, none⟩] ∧
    (⟨1, "", "x", none, none, none, none⟩ : TrainingData).question = "" := by
  exact ⟨rfl, rfl⟩

/-- A single operation preserves the id invariants: all ids below the
next id, and pairwise-distinct ids. -/
theorem applyOp_preserves (st : Store) (op : Op)
    (h1 : ∀ r ∈ st.records, r.id < st.nextId)
    (h2 : st.records.Pairwise (fun x y => x.id ≠ y.id)) :
    (∀ r ∈ (applyOp st op).records, r.id < (applyOp st op).nextId) ∧
    (applyOp st op).records.Pairwise (fun x y => x.id ≠ y.id) := by
  cases op with
  | add f =>
    cases hq : f.question with
    | none =>
      simp only [applyOp, add_training_data, hq]
      exact ⟨h1, h2⟩
    | some q =>
      cases ha : f.answer with
      | none =>
        simp only [applyOp, add_training_data, hq, ha]
        exact ⟨h1, h2⟩
      | some a =>
        simp only [applyOp, add_training_data, hq, ha]
        constructor
        · intro r hr
          rcases List.mem_append.mp hr with hmem | hmem
          · exact Nat.lt_succ_of_lt (h1 r hmem)
          · simp only [List.mem_singleton] at hmem
            subst hmem
            exact Nat.lt_succ_self _
        · rw [List.pairwise_append]
          refine ⟨h2, List.pairwise_singleton _ _, ?_⟩
          intro x hx y hy
          simp only [List.mem_singleton] at hy
          subst hy
          exact Nat.ne_of_lt (h1 x hx)
  | edit i f =>
    cases hg : getRecord i st with
    | none =>
      simp only [applyOp, edit_training_data, hg]
      exact ⟨h1, h2⟩
    | some r0 =>
      cases hq : f.question with
      | none =>
        simp only [applyOp, edit_training_data, hg, hq]
        exact ⟨h1, h2⟩
      | some q =>
        cases ha : f.answer with
        | none =>
          simp only [applyOp, edit_training_data, hg, hq, ha]
          exact ⟨h1, h2⟩
        | some a =>
          simp only [applyOp, edit_training_data, hg, hq, ha]
          constructor
          · intro r hr
            obtain ⟨x, hx, hxr⟩ := List.mem_map.mp hr
            have : r.id = x.id := by rw [← hxr]; exact editUpdate_id i f q a x
            rw [this]
            exact h1 x hx
          · apply List.pairwise_map.mpr
            apply h2.imp
            intro a0 b0 hne
            rw [editUpdate_id, editUpdate_id]
            exact hne
  | del i =>
    cases hg : getRecord i st with
    | none =>
      simp only [applyOp, delete_training_data, hg]
      exact ⟨h1, h2⟩
    | some r0 =>
      simp only [applyOp, delete_training_data, hg]
      constructor
      · intro r hr
        exact h1 r (List.mem_filter.mp hr).1
      · exact h2.sublist (List.filter_sublist _)

/-- Claim C9 (amended): after any sequence of add, edit and delete
operations from the fresh database, question and answer are present on
every record (the schema forbids NULL; they may however be empty
strings, as nothing validates non-emptiness), the record ids are
pairwise distinct and below the next id to be assigned, and the edit
operation never changes any record's id. -/
theorem claim_C9 (ops : List Op) :
    ((runOps ops).records.Pairwise (fun x y => x.id ≠ y.id) ∧
      ∀ r ∈ (runOps ops).records, r.id < (runOps ops).nextId) ∧
    (∀ id form st,
      (edit_training_data id form st).1.records.map (fun x => x.id) =
        st.records.map (fun x => x.id)) := by
  constructor
  · have main : ∀ (l : List Op) (st : Store),
        (∀ r ∈ st.records, r.id < st.nextId) →
        st.records.Pairwise (fun x y => x.id ≠ y.id) →
        ((l.foldl applyOp st).records.Pairwise (fun x y => x.id ≠ y.id) ∧
          ∀ r ∈ (l.foldl applyOp st).records, r.id < (l.foldl applyOp st).nextId) := by
      intro l
      induction l with
      | nil => intro st ha hb; exact ⟨hb, ha⟩
      | cons o t ih =>
        intro st ha hb
        have hp := applyOp_preserves st o ha hb
        exact ih (applyOp st o) hp.1 hp.2
    exact main ops emptyStore (by intro r hr; simp [emptyStore] at hr)
      (by simp [emptyStore])
  · intro id form st
    cases hg : getRecord id st with
    | none => simp [edit_training_data, hg]
    | some r0 =>
      cases hq : form.question with
      | none => simp [edit_training_data, hg, hq]
      | some q =>
        cases ha : form.answer with
        | none => simp [edit_training_data, hg, hq, ha]
        | some a =>
          simp only [edit_training_data, hg, hq, ha, List.map_map]
          exact List.map_congr_left (fun x _ => editUpdate_id id form q a x)

/-! ## Claim C10 -/

/-- Claim C10: when the chat POST carries a missing or empty `Body`, the
handler searches with the empty query, whose LIKE pattern `%%` matches
every record; on a non-empty store it therefore answers with the first
stored record's answer and never invokes the external completion
function. -/
theorem claim_C10 (completion : String → Except String String) (st : Store)
    (r : TrainingData) (rest : List TrainingData) (b : Option String)
    (hst : st.records = r :: rest) (hb : b = none ∨ b = some "") :
    search_training_data "" st = st.records ∧
    chatgptPost completion st b = (r.answer, 0) := by
  have hall : search_training_data "" st = st.records := by
    simp only [search_training_data]
    apply List.filter_eq_self.mpr
    intro x _
    exact likeMatch_percent_skip _ _ (likeMatch_percent_all x.question.data)
  refine ⟨hall, ?_⟩
  have hlow : pyLower (b.getD "") = "" := by
    rcases hb with h | h <;> subst h <;> rfl
  simp only [chatgptPost, hlow, hall, hst]

/-- Claim C10 witness: with a one-record store and a missing `Body`, the
handler returns the stored answer `"yo"` without invoking completion. -/
theorem claim_C10_witness :
    search_training_data "" oneRecStore = oneRecStore.records ∧
    chatgptPost (fun _ => Except.ok "GEN") oneRecStore none = ("yo", 0) :=
  claim_C10 (fun _ => Except.ok "GEN") oneRecStore
    ⟨1, "hi", "yo", none, none, none, none⟩ [] none rfl (Or.inl rfl)

/-- Claim C9 witness: the invariants instantiated after a single insert
operation. -/
theorem claim_C9_witness :
    (((runOps [Op.add ⟨some "q", some "a", none, none, none, none⟩]).records.Pairwise
        (fun x y => x.id ≠ y.id) ∧
      ∀ r ∈ (runOps [Op.add ⟨some "q", some "a", none, none, none, none⟩]).records,
        r.id < (runOps [Op.add ⟨some "q", some "a", none, none, none, none⟩]).nextId) ∧
    (∀ id form st,
      (edit_training_data id form st).1.records.map (fun x => x.id) =
        st.records.map (fun x => x.id))) :=
  claim_C9 [Op.add ⟨some "q", some "a", none, none, none, none⟩]
